import Mathlib

/-!
Verification of the fsds25-analogy repository: the analogy resolution and
ranking engine, the per-row batch loop of `load_script.py`, and the
`ModelManager` cache of `src/models.py`.

The batch loop and `ModelManager` are embedded directly from the Python
source.  The analogy core (`src/analogy_tests.py`: `test_analogy`,
`run_analogy_test_suite`, `print_test_summary`) is not present in the
sources, so those components are modelled from the specification
(sections 4.1, 4.2, 4.4, 6) and marked as such in their doc comments.
-/

namespace Analogy

abbrev Token := String

/-- Vectors are finite sequences of rationals (real components of the
embedding vectors; rationals keep every operation executable). -/
abbrev Vec := List ℚ

/-- Componentwise subtraction of vectors. -/
def vecSub (u v : Vec) : Vec := List.zipWith (fun x y => x - y) u v

/-- Componentwise addition of vectors. -/
def vecAdd (u v : Vec) : Vec := List.zipWith (fun x y => x + y) u v

/-- Sum of squared components; zero exactly for the zero vector, used for
the degenerate (zero-magnitude) target check of spec section 4.1. -/
def sumSq (u : Vec) : ℚ := (u.map (fun x => x * x)).sum

/-- Modelled from the spec (section 3): the external embedding store.
`vocab` is the vocabulary in descending corpus-frequency order, each token
paired with its vector. -/
structure VectorSpace where
  vocab : List (Token × Vec)

/-- Modelled from the spec (section 6): `vector_of(token) -> vector | absent`. -/
def VectorSpace.vectorOf (s : VectorSpace) (t : Token) : Option Vec :=
  (s.vocab.find? (fun p => p.1 = t)).map Prod.snd

/-- The ordered vocabulary token sequence of the store. -/
def VectorSpace.tokens (s : VectorSpace) : List Token := s.vocab.map Prod.fst

/-- Modelled from the spec (section 3): a scored candidate.  `freqIdx` is
the candidate's position in the frequency-ordered vocabulary, recorded for
the deterministic tie-break. -/
structure Candidate where
  token : Token
  score : ℚ
  freqIdx : Nat
deriving DecidableEq, Repr

/-- Ranking order of spec section 4.1 step 6: descending similarity,
ties broken by ascending frequency rank. -/
def candLE (x y : Candidate) : Prop :=
  y.score < x.score ∨ (x.score = y.score ∧ x.freqIdx ≤ y.freqIdx)

/-- Strict version of the ranking order: every pair of distinct positions
in a deterministically ranked list is related by it. -/
def candLT (x y : Candidate) : Prop :=
  y.score < x.score ∨ (x.score = y.score ∧ x.freqIdx < y.freqIdx)

instance : DecidableRel candLE := fun x y => by
  unfold candLE; infer_instance

instance : IsTotal Candidate candLE where
  total x y := by
    rcases lt_trichotomy x.score y.score with h | h | h
    · exact Or.inr (Or.inl h)
    · rcases Nat.le_total x.freqIdx y.freqIdx with hi | hi
      · exact Or.inl (Or.inr ⟨h, hi⟩)
      · exact Or.inr (Or.inr ⟨h.symm, hi⟩)
    · exact Or.inl (Or.inl h)

instance : IsTrans Candidate candLE where
  trans x y z hxy hyz := by
    rcases hxy with h1 | ⟨e1, i1⟩
    · rcases hyz with h2 | ⟨e2, _⟩
      · exact Or.inl (h2.trans h1)
      · exact Or.inl (e2 ▸ h1)
    · rcases hyz with h2 | ⟨e2, i2⟩
      · exact Or.inl (by rw [e1]; exact h2)
      · exact Or.inr ⟨e1.trans e2, i1.trans i2⟩

/-- Modelled from the spec (section 7): resolver failure taxonomy. -/
inductive Failure where
  | outOfVocabulary (tokens : List Token)
  | invalidParameter
  | degenerateQuery
deriving DecidableEq, Repr

/-- Modelled from the spec (section 4.1 step 7): a successful resolution
keeps the full search_space-deep ranking for rank lookup and returns the
first top_n entries as the display list. -/
structure Resolved where
  display : List Candidate
  fullRanked : List Candidate
  target : Vec
deriving DecidableEq, Repr

/-- Pairs each list element with its position, starting at `i`. -/
def withIdx (i : Nat) : List α → List (Nat × α)
  | [] => []
  | x :: xs => (i, x) :: withIdx (i + 1) xs

/-- Modelled from the spec (section 4.1 steps 3 to 6): restrict the pool to
the first `search_space` vocabulary entries, exclude the query tokens,
score by similarity to the target, and sort by descending similarity with
the ascending-frequency tie-break. -/
def rankCandidates (sim : Vec → Vec → ℚ) (space : VectorSpace) (a b c : Token)
    (target : Vec) (search_space : Nat) : List Candidate :=
  List.insertionSort candLE
    (((withIdx 0 (space.vocab.take search_space)).filter
        (fun p => p.2.1 ≠ a ∧ p.2.1 ≠ b ∧ p.2.1 ≠ c)).map
      (fun p => ⟨p.2.1, sim target p.2.2, p.1⟩))

/-- Modelled from the spec (section 4.1): the AnalogyResolver.  The cosine
similarity of the spec involves real square roots, which have no executable
rational form; the score function `sim` is therefore a parameter, over which
the ranking, exclusion and determinism claims are proved uniformly. -/
def resolve (sim : Vec → Vec → ℚ) (space : VectorSpace) (a b c : Token)
    (top_n search_space : Nat) : Except Failure Resolved :=
  if top_n = 0 ∨ search_space = 0 then .error .invalidParameter
  else
    match space.vectorOf a, space.vectorOf b, space.vectorOf c with
    | some va, some vb, some vc =>
      if sumSq (vecAdd (vecSub vb va) vc) = 0 then .error .degenerateQuery
      else
        .ok ⟨(rankCandidates sim space a b c (vecAdd (vecSub vb va) vc) search_space).take top_n,
             rankCandidates sim space a b c (vecAdd (vecSub vb va) vc) search_space,
             vecAdd (vecSub vb va) vc⟩
    | _, _, _ =>
      .error (.outOfVocabulary ([a, b, c].filter (fun t => space.vectorOf t = none)))

/-- Modelled from the spec (section 4.2): rank-evaluation result. -/
inductive RankResult where
  | rank (k : Nat)
  | notFound
  | invalid
deriving DecidableEq, Repr

/-- Position (0-based) of the first candidate carrying the given token. -/
def firstOcc (e : Token) : List Candidate → Option Nat
  | [] => none
  | cd :: rest => if cd.token = e then some 0 else (firstOcc e rest).map (· + 1)

/-- Modelled from the spec (section 4.2): the RankEvaluator.  `Invalid` when
the expected token is absent from the vocabulary, `NotFound` when it is in
the vocabulary but not in the ranked list, otherwise the 1-based position of
its first occurrence in the full ranked list. -/
def locate (space : VectorSpace) (fullRanked : List Candidate) (e : Token) : RankResult :=
  if e ∈ space.tokens then
    match firstOcc e fullRanked with
    | some i => .rank (i + 1)
    | none => .notFound
  else .invalid

/-- Rendering of a resolver failure as an exception message, as the Python
side would see a raised exception caught by `except Exception`. -/
def failureMessage : Failure → String
  | .outOfVocabulary ts => "out of vocabulary: " ++ String.intercalate ", " ts
  | .invalidParameter => "invalid parameter"
  | .degenerateQuery => "degenerate query"

/-- Return value shapes of `test_analogy` handled by `load_script.py`:
a 3-tuple `(neighbors, rank, pred)`, a 2-tuple `(neighbors, rank)`, or
`None`; the row loop unpacks each shape. -/
inductive TAResult where
  | asTriple (neighbors : List (Token × ℚ)) (rank : Option Nat) (pred : Option Token)
  | asPair (neighbors : List (Token × ℚ)) (rank : Option Nat)
  | asNone
deriving DecidableEq

/-- Modelled from the spec (sections 4.1, 4.2, 6): `test_analogy` of the
absent `src/analogy_tests.py`.  Resolves the query, locates the expected
token in the full ranking, and returns the display neighbours, the optional
1-based rank, and the top candidate's token as prediction; a resolver
failure is raised (modelled by `Except.error`) and caught at the batch
boundary. -/
def test_analogy (sim : Vec → Vec → ℚ) (space : VectorSpace)
    (a b c expected : Token) (top_n search_space : Nat) : Except String TAResult :=
  match resolve sim space a b c top_n search_space with
  | .error f => .error (failureMessage f)
  | .ok r =>
    .ok (.asTriple (r.display.map (fun cd => (cd.token, cd.score)))
      (match locate space r.fullRanked expected with
       | .rank k => some k
       | _ => none)
      ((r.display.head?).map Candidate.token))

/-- One CSV row of the batch input: columns word1, word2, word3,
and "word4 (target)" of `load_script.py`. -/
structure InRow where
  word1 : Token
  word2 : Token
  word3 : Token
  word4 : Token
deriving DecidableEq, Repr

/-- One output row after the loop of `load_script.py`: the input row plus
the written `pred_fasttextwiki` and `targetrank_fasttextwiki` cells. -/
structure OutRow where
  row : InRow
  pred : String
  targetrank : Option Nat
deriving DecidableEq, Repr

/-- Result unpacking of `load_script.py` lines 56 to 66: `None` and
unrecognised shapes leave `pred, rank = None, None`; a 3-tuple is unpacked
directly; for a 2-tuple the prediction is the first neighbour's token when
the neighbour list is non-empty. -/
def unpackResult : TAResult → Option Token × Option Nat
  | .asTriple _ rank pred => (pred, rank)
  | .asPair ns rank => ((ns.head?).map Prod.fst, rank)
  | .asNone => (none, none)

/-- Python truthiness write of line 68: `pred if pred else ""` — `None` and
the empty string both become the empty string. -/
def pyStr : Option String → String
  | some t => if t = "" then "" else t
  | none => ""

/-- Python truthiness write of line 69: `rank if rank else None` — `None`
and `0` both become `None`. -/
def pyRank : Option Nat → Option Nat
  | some 0 => none
  | some (k + 1) => some (k + 1)
  | none => none

/-- One iteration of the row loop of `load_script.py` lines 48 to 74: call
`test_analogy` inside `try`, unpack, and write the two cells; on a raised
exception write the empty string and null instead. -/
def processRow (f : InRow → Except String TAResult) (q : InRow) : OutRow :=
  match f q with
  | .error _ => ⟨q, "", none⟩
  | .ok r => ⟨q, pyStr (unpackResult r).1, pyRank (unpackResult r).2⟩

/-- The whole row loop of `load_script.py`: every row of the frame is
processed in order and its cells written in place. -/
def runBatch (f : InRow → Except String TAResult) (rows : List InRow) : List OutRow :=
  rows.map (processRow f)

/-- The `f` used by `load_script.py`: `test_analogy` on the four columns of
the row, with fixed model, `top_n` and `search_space`. -/
def taRow (sim : Vec → Vec → ℚ) (space : VectorSpace) (top_n search_space : Nat)
    (q : InRow) : Except String TAResult :=
  test_analogy sim space q.word1 q.word2 q.word3 q.word4 top_n search_space

/-! ### ModelManager (`src/src/models.py`) -/

/-- The `ModelManager` state: `cache_dir` and the `_models` instance cache,
a name-keyed association (loaded models stand in as opaque numeric handles;
directory creation and the gensim information download have no effect on
the cache). -/
structure ModelManager where
  cache_dir : String
  _models : List (String × Nat)
deriving DecidableEq, Repr

/-- `ModelManager.__init__` (lines 80 to 90): stores the cache directory
and starts with an empty `_models` cache. -/
def ModelManager.init (cache_dir : String) : ModelManager :=
  { cache_dir := cache_dir, _models := [] }

/-- The shared load pattern of the three loader methods (for example lines
118 to 151): return the cached model when the name is in `_models`,
otherwise call `api.load` (the parameter `apiLoad`) and store the result.
The boolean records whether `api.load` was invoked. -/
def loadByName (apiLoad : String → Nat) (model_name : String) (m : ModelManager) :
    Nat × ModelManager × Bool :=
  match m._models.lookup model_name with
  | some model => (model, m, false)
  | none =>
    (apiLoad model_name,
     { m with _models := (model_name, apiLoad model_name) :: m._models }, true)

/-- `ModelManager.load_word2vec_google_news` (lines 106 to 151). -/
def ModelManager.load_word2vec_google_news (apiLoad : String → Nat) (m : ModelManager) :
    Nat × ModelManager × Bool :=
  loadByName apiLoad "word2vec-google-news-300" m

/-- `ModelManager.load_fasttext_wiki_news` (lines 153 to 196). -/
def ModelManager.load_fasttext_wiki_news (apiLoad : String → Nat) (m : ModelManager) :
    Nat × ModelManager × Bool :=
  loadByName apiLoad "fasttext-wiki-news-subwords-300" m

/-- The `valid_dims` list of `load_glove` (line 212). -/
def valid_dims : List Int := [25, 50, 100, 200]

/-- `ModelManager.load_glove` (lines 199 to 249): raise `ValueError` for a
dimension outside `valid_dims` before any cache lookup or download,
otherwise load `glove-wiki-gigaword-<dimension>` through the cache. -/
def ModelManager.load_glove (apiLoad : String → Nat) (dimension : Int) (m : ModelManager) :
    Except String (Nat × ModelManager × Bool) :=
  if dimension ∈ valid_dims then
    .ok (loadByName apiLoad ("glove-wiki-gigaword-" ++ toString dimension) m)
  else
    .error ("Invalid dimension: " ++ toString dimension ++ ". Choose from [25, 50, 100, 200]")

/-! ### SummaryAggregator (spec section 4.4) -/

/-- Modelled from the spec (section 3): the fields of an `AnalogyOutcome`
that the aggregate accuracies depend on — the optional rank and whether the
query failed. -/
structure Outcome where
  rank_of_expected : Option Nat
  failed : Bool
deriving DecidableEq, Repr

/-- Modelled from the spec (section 4.4): the two accuracy fields of a
`SuiteSummary`. -/
structure SuiteSummary where
  top1_accuracy : ℚ
  topN_accuracy : ℚ
deriving DecidableEq, Repr

/-- Modelled from the spec (section 4.4), literally: `top1_accuracy` is the
fraction of outcomes with rank 1 over successful outcomes only, and
`topN_accuracy` is the fraction of outcomes whose rank is defined and at
most `top_n`. -/
def summarize (top_n : Nat) (outs : List Outcome) : SuiteSummary :=
  { top1_accuracy :=
      ((outs.countP (fun o => !o.failed && o.rank_of_expected == some 1) : ℚ)) /
        ((outs.countP (fun o => !o.failed) : ℚ)),
    topN_accuracy :=
      ((outs.countP (fun o =>
          match o.rank_of_expected with
          | some k => decide (k ≤ top_n)
          | none => false) : ℚ)) / ((outs.length : ℚ)) }

/-! ### Concrete fixtures used by witnesses -/

/-- Toy vector space in the shape of spec section 8 scenario 1. -/
def exSpace : VectorSpace :=
  ⟨[("king", [1]), ("man", [0]), ("woman", [0]), ("queen", [1])]⟩

/-- Constant similarity; the ranking claims hold for every score function. -/
def simZero : Vec → Vec → ℚ := fun _ _ => 0

/-- An in-vocabulary query row. -/
def exRowGood : InRow := ⟨"man", "woman", "king", "queen"⟩

/-- A row whose first token is out of vocabulary, so its resolution fails. -/
def exRowBad : InRow := ⟨"zzz", "woman", "king", "queen"⟩

/-- The resolution of `exRowGood` against `exSpace` under `simZero`. -/
def exResolved : Resolved := ⟨[⟨"queen", 0, 3⟩], [⟨"queen", 0, 3⟩], [1]⟩

/-! ### Structural lemmas -/

/-- Destructuring a successful resolution: the three lookups succeeded, the
target is the offset-arithmetic vector, the full ranking is the sorted
scored pool, and the display list is its `top_n`-prefix. -/
theorem resolve_eq_ok {sim : Vec → Vec → ℚ} {space : VectorSpace} {a b c : Token}
    {top_n search_space : Nat} {r : Resolved}
    (h : resolve sim space a b c top_n search_space = .ok r) :
    ∃ va vb vc, space.vectorOf a = some va ∧ space.vectorOf b = some vb ∧
      space.vectorOf c = some vc ∧
      r.target = vecAdd (vecSub vb va) vc ∧
      r.fullRanked = rankCandidates sim space a b c (vecAdd (vecSub vb va) vc) search_space ∧
      r.display = r.fullRanked.take top_n := by
  unfold resolve at h
  split at h
  · exact absurd h (by simp)
  · split at h
    · next va vb vc ha hb hc =>
      split at h
      · exact absurd h (by simp)
      · cases h
        exact ⟨va, vb, vc, ha, hb, hc, rfl, rfl, rfl⟩
    · exact absurd h (by simp)

theorem withIdx_le {α : Type} (i : Nat) (l : List α) : ∀ p ∈ withIdx i l, i ≤ p.1 := by
  induction l generalizing i with
  | nil => simp [withIdx]
  | cons x xs ih =>
    intro p hp
    simp only [withIdx, List.mem_cons] at hp
    rcases hp with rfl | hp
    · exact le_refl i
    · exact (Nat.le_succ i).trans (ih (i + 1) p hp)

theorem withIdx_pairwise {α : Type} (i : Nat) (l : List α) :
    (withIdx i l).Pairwise (fun p q => p.1 < q.1) := by
  induction l generalizing i with
  | nil => exact List.Pairwise.nil
  | cons x xs ih =>
    exact List.Pairwise.cons
      (fun q hq => lt_of_lt_of_le (Nat.lt_succ_self i) (withIdx_le (i + 1) xs q hq))
      (ih (i + 1))

/-- Every candidate in the ranked pool carries a token different from each
of the three query tokens (spec section 4.1 step 4). -/
theorem mem_rankCandidates_ne {sim : Vec → Vec → ℚ} {space : VectorSpace}
    {a b c : Token} {target : Vec} {ss : Nat} {cd : Candidate}
    (h : cd ∈ rankCandidates sim space a b c target ss) :
    cd.token ≠ a ∧ cd.token ≠ b ∧ cd.token ≠ c := by
  unfold rankCandidates at h
  rw [List.mem_insertionSort] at h
  rcases List.mem_map.1 h with ⟨p, hp, rfl⟩
  rcases List.mem_filter.1 hp with ⟨_, hcond⟩
  simpa using hcond

/-- The ranked pool is sorted with respect to the ranking order. -/
theorem rankCandidates_sorted (sim : Vec → Vec → ℚ) (space : VectorSpace)
    (a b c : Token) (target : Vec) (ss : Nat) :
    (rankCandidates sim space a b c target ss).Pairwise candLE :=
  List.sorted_insertionSort candLE _

/-- Frequency indices in the ranked pool are pairwise distinct: they are
positions in the vocabulary prefix. -/
theorem rankCandidates_pairwise_ne (sim : Vec → Vec → ℚ) (space : VectorSpace)
    (a b c : Token) (target : Vec) (ss : Nat) :
    (rankCandidates sim space a b c target ss).Pairwise
      (fun x y => x.freqIdx ≠ y.freqIdx) := by
  unfold rankCandidates
  rw [(List.perm_insertionSort candLE _).pairwise_iff (fun h => Ne.symm h)]
  rw [List.pairwise_map]
  exact ((withIdx_pairwise 0 _).filter _).imp (fun h => Nat.ne_of_lt h)

/-- The ranked pool is strictly sorted: descending score, ties broken by
strictly ascending frequency index. -/
theorem rankCandidates_pairwise_lt (sim : Vec → Vec → ℚ) (space : VectorSpace)
    (a b c : Token) (target : Vec) (ss : Nat) :
    (rankCandidates sim space a b c target ss).Pairwise candLT := by
  refine ((rankCandidates_sorted sim space a b c target ss).and
    (rankCandidates_pairwise_ne sim space a b c target ss)).imp ?_
  rintro x y ⟨hle | ⟨he, hi⟩, hne⟩
  · exact Or.inl hle
  · exact Or.inr ⟨he, lt_of_le_of_ne hi hne⟩

theorem firstOcc_none {e : Token} {l : List Candidate} :
    firstOcc e l = none ↔ ∀ cd ∈ l, cd.token ≠ e := by
  induction l with
  | nil => simp [firstOcc]
  | cons cd rest ih =>
    by_cases h : cd.token = e
    · simp [firstOcc, h]
    · simp [firstOcc, h, ih]

theorem firstOcc_some {e : Token} {l : List Candidate} {i : Nat}
    (h : firstOcc e l = some i) :
    ∃ hi : i < l.length, (l.get ⟨i, hi⟩).token = e ∧ ∀ cd ∈ l.take i, cd.token ≠ e := by
  induction l generalizing i with
  | nil => simp [firstOcc] at h
  | cons cd rest ih =>
    by_cases hcd : cd.token = e
    · simp only [firstOcc, if_pos hcd] at h
      cases h
      exact ⟨Nat.succ_pos _, hcd, by simp⟩
    · simp only [firstOcc, if_neg hcd, Option.map_eq_some'] at h
      rcases h with ⟨j, hj, rfl⟩
      rcases ih hj with ⟨hji, hget, hpre⟩
      refine ⟨Nat.succ_lt_succ hji, hget, ?_⟩
      intro x hx
      simp only [List.take_succ_cons, List.mem_cons] at hx
      rcases hx with rfl | hx
      · exact hcd
      · exact hpre x hx

/-- Whatever the per-row computation returns, the written row carries the
input row unchanged. -/
theorem processRow_row (f : InRow → Except String TAResult) (q : InRow) :
    (processRow f q).row = q := by
  cases hfq : f q <;> simp [processRow, hfq]

/-! ### Claim theorems -/

/-- C1: an exception raised while resolving or rank-evaluating one query is
caught at the batch boundary and recorded against that query only — its
output row gets an empty prediction and a null rank — while every other
query is still processed by the unchanged per-row computation, and the
batch produces one output row per input row no matter how many rows
fail. -/
theorem batch_failure_isolation (f : InRow → Except String TAResult)
    (rows : List InRow) (i : Nat) (q : InRow) (msg : String)
    (hq : rows[i]? = some q) (hfail : f q = .error msg) :
    (runBatch f rows).length = rows.length ∧
    (runBatch f rows)[i]? = some ⟨q, "", none⟩ ∧
    ∀ j, j ≠ i → (runBatch f rows)[j]? = (rows[j]?).map (processRow f) := by
  refine ⟨by simp [runBatch], ?_, ?_⟩
  · rw [runBatch, List.getElem?_map, hq]
    simp [processRow, hfail]
  · intro j _
    rw [runBatch, List.getElem?_map]

/-- Witness for C1: in a two-row batch whose second row is out of
vocabulary, that row is recorded with empty prediction and null rank and
the batch still has two output rows. -/
theorem batch_failure_isolation_witness :
    (runBatch (taRow simZero exSpace 5 4) [exRowGood, exRowBad]).length = 2 ∧
    (runBatch (taRow simZero exSpace 5 4) [exRowGood, exRowBad])[1]? =
      some ⟨exRowBad, "", none⟩ := by
  have h := batch_failure_isolation (taRow simZero exSpace 5 4) [exRowGood, exRowBad]
    1 exRowBad (failureMessage (.outOfVocabulary ["zzz"]))
    (by simp)
    (by simp [taRow, test_analogy, resolve, exRowBad, exSpace, VectorSpace.vectorOf])
  exact ⟨h.1, h.2.1⟩

/-- C2: the batch runner produces exactly one outcome per input query, in
the same order as the input: the i-th output row is the per-row computation
applied to the i-th input row, and it carries that input row. -/
theorem batch_preserves_order (f : InRow → Except String TAResult) (rows : List InRow) :
    (runBatch f rows).length = rows.length ∧
    ∀ (i : Nat) (q : InRow), rows[i]? = some q →
      (runBatch f rows)[i]? = some (processRow f q) ∧ (processRow f q).row = q := by
  refine ⟨by simp [runBatch], fun i q hq => ?_⟩
  refine ⟨?_, processRow_row f q⟩
  rw [runBatch, List.getElem?_map, hq]
  rfl

/-- Witness for C2: in the two-row batch with a failing second row, both
output rows sit at the positions of their input rows. -/
theorem batch_preserves_order_witness :
    (runBatch (taRow simZero exSpace 5 4) [exRowGood, exRowBad]).length = 2 ∧
    (runBatch (taRow simZero exSpace 5 4) [exRowGood, exRowBad])[0]? =
      some (processRow (taRow simZero exSpace 5 4) exRowGood) ∧
    (processRow (taRow simZero exSpace 5 4) exRowGood).row = exRowGood := by
  have h := batch_preserves_order (taRow simZero exSpace 5 4) [exRowGood, exRowBad]
  have h0 := h.2 0 exRowGood (by simp)
  exact ⟨h.1, h0.1, h0.2⟩

/-- Loading a name that is already cached returns the stored model, leaves
the state unchanged, and does not invoke the loader. -/
theorem loadByName_cached (apiLoad : String → Nat) (name : String) {m : ModelManager}
    {v : Nat} {m2 : ModelManager} {b : Bool}
    (h : loadByName apiLoad name m = (v, m2, b)) :
    loadByName apiLoad name m2 = (v, m2, false) := by
  unfold loadByName at h ⊢
  cases hl : m._models.lookup name with
  | some w =>
    rw [hl] at h
    cases h
    rw [hl]
  | none =>
    rw [hl] at h
    cases h
    simp [List.lookup]

/-- A cache entry present before a load is still present, unchanged, after
it: the cache only grows. -/
theorem loadByName_preserves (apiLoad : String → Nat) (name : String) {m : ModelManager}
    {v : Nat} {m2 : ModelManager} {b : Bool}
    (h : loadByName apiLoad name m = (v, m2, b))
    (k : String) (w : Nat) (hk : m._models.lookup k = some w) :
    m2._models.lookup k = some w := by
  unfold loadByName at h
  cases hl : m._models.lookup name with
  | some u =>
    rw [hl] at h
    cases h
    exact hk
  | none =>
    rw [hl] at h
    cases h
    by_cases hkey : k = name
    · rw [hkey] at hk
      rw [hk] at hl
      cases hl
    · have hb : (k == name) = false := beq_eq_false_iff_ne.2 hkey
      simp [List.lookup, hb]
      exact hk

/-- C9: per `ModelManager` instance, loading is cached and idempotent — the
cache starts empty at construction; after any of the three loaders has run
once for a name, running it again on the resulting instance returns the
identical stored model with the very same state and does not invoke the
loader (the boolean flag records an `api.load` call); and existing cache
entries are never removed or overwritten. -/
theorem modelManager_cache_idempotent (apiLoad : String → Nat) (d : String)
    (m : ModelManager) :
    (ModelManager.init d)._models = [] ∧
    (∀ name v, m._models.lookup name = some v → loadByName apiLoad name m = (v, m, false)) ∧
    (∀ v m2 b, m.load_word2vec_google_news apiLoad = (v, m2, b) →
      m2.load_word2vec_google_news apiLoad = (v, m2, false)) ∧
    (∀ v m2 b, m.load_fasttext_wiki_news apiLoad = (v, m2, b) →
      m2.load_fasttext_wiki_news apiLoad = (v, m2, false)) ∧
    (∀ dim v m2 b, m.load_glove apiLoad dim = .ok (v, m2, b) →
      m2.load_glove apiLoad dim = .ok (v, m2, false)) ∧
    (∀ name v m2 b, loadByName apiLoad name m = (v, m2, b) →
      ∀ k w, m._models.lookup k = some w → m2._models.lookup k = some w) := by
  refine ⟨rfl, fun name v hv => by unfold loadByName; rw [hv],
    fun v m2 b h => loadByName_cached apiLoad _ h,
    fun v m2 b h => loadByName_cached apiLoad _ h, ?_,
    fun name v m2 b h => loadByName_preserves apiLoad name h⟩
  intro dim v m2 b h
  unfold ModelManager.load_glove at h ⊢
  by_cases hdim : dim ∈ valid_dims
  · rw [if_pos hdim] at h
    rw [if_pos hdim]
    cases hlb : loadByName apiLoad ("glove-wiki-gigaword-" ++ toString dim) m with
    | mk v2 rest =>
      rw [hlb] at h
      cases h
      rw [loadByName_cached apiLoad _ hlb]
  · rw [if_neg hdim] at h
    cases h

/-- Witness for C9: loading GloVe twice at dimension 100 on a fresh
manager returns the first result from the cache without a second load. -/
theorem modelManager_cache_idempotent_witness :
    (ModelManager.init "data/models")._models = [] ∧
    (ModelManager.init "data/models").load_glove (fun _ => 7) 100 =
      .ok (7, ⟨"data/models", [("glove-wiki-gigaword-100", 7)]⟩, true) ∧
    ModelManager.load_glove (fun _ => 7) 100 ⟨"data/models", [("glove-wiki-gigaword-100", 7)]⟩ =
      .ok (7, ⟨"data/models", [("glove-wiki-gigaword-100", 7)]⟩, false) := by
  have h :=
    (modelManager_cache_idempotent (fun _ => 7) "data/models" (ModelManager.init "data/models")).2.2.2.2.1
      100 7 ⟨"data/models", [("glove-wiki-gigaword-100", 7)]⟩ true
      (by
        have hs : "glove-wiki-gigaword-" ++ toString (100 : Int) = "glove-wiki-gigaword-100" := by
          decide
        simp [ModelManager.init, ModelManager.load_glove, valid_dims, loadByName,
          List.lookup, hs])
  refine ⟨rfl, ?_, h⟩
  have hs : "glove-wiki-gigaword-" ++ toString (100 : Int) = "glove-wiki-gigaword-100" := by
    decide
  simp [ModelManager.init, ModelManager.load_glove, valid_dims, loadByName, List.lookup, hs]

/-- C10: `load_glove` fails with the `ValueError` message for every
dimension outside `{25, 50, 100, 200}`, and does so independently of the
cache state and of the loader — so before any cache lookup or download;
for a valid dimension it loads `glove-wiki-gigaword-<dimension>` through
the cache. -/
theorem load_glove_invalid_dimension (dimension : Int) (apiLoad apiLoad2 : String → Nat)
    (m m2 : ModelManager) :
    (dimension ∉ valid_dims →
      m.load_glove apiLoad dimension =
        .error ("Invalid dimension: " ++ toString dimension ++
          ". Choose from [25, 50, 100, 200]") ∧
      m.load_glove apiLoad dimension = m2.load_glove apiLoad2 dimension) ∧
    (dimension ∈ valid_dims →
      m.load_glove apiLoad dimension =
        .ok (loadByName apiLoad ("glove-wiki-gigaword-" ++ toString dimension) m)) := by
  constructor
  · intro h
    unfold ModelManager.load_glove
    rw [if_neg h, if_neg h]
    exact ⟨rfl, rfl⟩
  · intro h
    unfold ModelManager.load_glove
    rw [if_pos h]

/-- Witness for C10: dimension 300 is rejected on any manager, and
dimension 100 proceeds to the cache-mediated load. -/
theorem load_glove_invalid_dimension_witness :
    (ModelManager.init "data/models").load_glove (fun _ => 7) 300 =
      .error ("Invalid dimension: " ++ toString (300 : Int) ++
        ". Choose from [25, 50, 100, 200]") ∧
    (ModelManager.init "data/models").load_glove (fun _ => 7) 100 =
      .ok (loadByName (fun _ => 7) ("glove-wiki-gigaword-" ++ toString (100 : Int))
        (ModelManager.init "data/models")) := by
  have h1 := (load_glove_invalid_dimension 300 (fun _ => 7) (fun _ => 7)
    (ModelManager.init "data/models") (ModelManager.init "data/models")).1 (by decide)
  have h2 := (load_glove_invalid_dimension 100 (fun _ => 7) (fun _ => 7)
    (ModelManager.init "data/models") (ModelManager.init "data/models")).2 (by decide)
  exact ⟨h1.1, h2⟩

/-- C3: for a query whose three tokens are all present in the vocabulary,
the resolver's target vector equals vector(b) − vector(a) + vector(c). -/
theorem resolve_target_formula (sim : Vec → Vec → ℚ) (space : VectorSpace)
    (a b c : Token) (top_n search_space : Nat) (va vb vc : Vec)
    (ha : space.vectorOf a = some va) (hb : space.vectorOf b = some vb)
    (hc : space.vectorOf c = some vc) :
    ∀ r, resolve sim space a b c top_n search_space = .ok r →
      r.target = vecAdd (vecSub vb va) vc := by
  intro r hr
  rcases resolve_eq_ok hr with ⟨va2, vb2, vc2, ha2, hb2, hc2, ht, _, _⟩
  rw [ha] at ha2
  rw [hb] at hb2
  rw [hc] at hc2
  injection ha2 with h1
  injection hb2 with h2
  injection hc2 with h3
  subst h1
  subst h2
  subst h3
  exact ht

/-- Witness for C3: the concrete query (man, woman, king) against the toy
space resolves, and the target is vector(woman) − vector(man) + vector(king). -/
theorem resolve_target_formula_witness :
    exSpace.vectorOf "man" = some [0] ∧ exSpace.vectorOf "woman" = some [0] ∧
    exSpace.vectorOf "king" = some [1] ∧
    resolve simZero exSpace "man" "woman" "king" 5 4 = .ok exResolved ∧
    exResolved.target = vecAdd (vecSub [0] [0]) [1] := by
  have hok : resolve simZero exSpace "man" "woman" "king" 5 4 = .ok exResolved := by
    simp [resolve, exSpace, exResolved, VectorSpace.vectorOf, vecAdd, vecSub, sumSq,
      rankCandidates, withIdx, simZero, List.insertionSort, List.orderedInsert]
  refine ⟨by simp [exSpace, VectorSpace.vectorOf], by simp [exSpace, VectorSpace.vectorOf],
    by simp [exSpace, VectorSpace.vectorOf], hok, ?_⟩
  exact resolve_target_formula simZero exSpace "man" "woman" "king" 5 4 [0] [0] [1]
    (by simp [exSpace, VectorSpace.vectorOf]) (by simp [exSpace, VectorSpace.vectorOf])
    (by simp [exSpace, VectorSpace.vectorOf]) exResolved hok

/-- C4: locate returns Invalid exactly when the expected token is absent
from the embedding vocabulary; NotFound exactly when the token is in the
vocabulary but occurs nowhere in the ranked list it is given; and otherwise
the 1-based position of the token's first occurrence in that full list. -/
theorem locate_cases (space : VectorSpace) (l : List Candidate) (e : Token) :
    (locate space l e = .invalid ↔ e ∉ space.tokens) ∧
    (locate space l e = .notFound ↔ e ∈ space.tokens ∧ ∀ cd ∈ l, cd.token ≠ e) ∧
    (∀ k, locate space l e = .rank k →
      1 ≤ k ∧ ∃ hk : k - 1 < l.length, (l.get ⟨k - 1, hk⟩).token = e ∧
        ∀ cd ∈ l.take (k - 1), cd.token ≠ e) := by
  by_cases he : e ∈ space.tokens
  · cases hfo : firstOcc e l with
    | some i =>
      have hl : locate space l e = .rank (i + 1) := by
        simp only [locate, if_pos he, hfo]
      refine ⟨?_, ?_, ?_⟩
      · rw [hl]
        simp [he]
      · rw [hl]
        constructor
        · intro h
          cases h
        · rintro ⟨_, hall⟩
          rw [firstOcc_none.2 hall] at hfo
          cases hfo
      · intro k hk
        rw [hl] at hk
        injection hk with h
        subst h
        rcases firstOcc_some hfo with ⟨hi, hget, hpre⟩
        exact ⟨Nat.succ_le_succ (Nat.zero_le i), hi, hget, hpre⟩
    | none =>
      have hl : locate space l e = .notFound := by
        simp only [locate, if_pos he, hfo]
      refine ⟨?_, ?_, ?_⟩
      · rw [hl]
        constructor
        · intro h
          cases h
        · intro h
          exact absurd he h
      · rw [hl]
        simp only [true_iff]
        exact ⟨he, firstOcc_none.1 hfo⟩
      · intro k hk
        rw [hl] at hk
        cases hk
  · have hl : locate space l e = .invalid := by
      simp only [locate, if_neg he]
    refine ⟨?_, ?_, ?_⟩
    · rw [hl]
      simp [he]
    · rw [hl]
      constructor
      · intro h
        cases h
      · rintro ⟨hin, _⟩
        exact absurd hin he
    · intro k hk
      rw [hl] at hk
      cases hk

/-- Witness for C4: on the concrete one-candidate ranking the expected
token queen is located at rank 1, which is its first occurrence. -/
theorem locate_cases_witness :
    1 ≤ 1 ∧ ∃ hk : 1 - 1 < [Candidate.mk "queen" 0 3].length,
      ([Candidate.mk "queen" 0 3].get ⟨1 - 1, hk⟩).token = "queen" ∧
      ∀ cd ∈ [Candidate.mk "queen" 0 3].take (1 - 1), cd.token ≠ "queen" := by
  exact (locate_cases exSpace [⟨"queen", 0, 3⟩] "queen").2.2 1
    (by simp [locate, exSpace, VectorSpace.tokens, firstOcc])

/-- C5: none of the three input tokens appears in the candidate lists
returned by the resolver, neither in the full ranking nor in the display
list. -/
theorem resolve_excludes_inputs (sim : Vec → Vec → ℚ) (space : VectorSpace)
    (a b c : Token) (top_n search_space : Nat) (r : Resolved)
    (hr : resolve sim space a b c top_n search_space = .ok r) :
    ∀ cd, cd ∈ r.fullRanked ∨ cd ∈ r.display →
      cd.token ≠ a ∧ cd.token ≠ b ∧ cd.token ≠ c := by
  rcases resolve_eq_ok hr with ⟨va, vb, vc, _, _, _, _, hfull, hdisp⟩
  intro cd hcd
  have hmem : cd ∈ r.fullRanked := by
    rcases hcd with h | h
    · exact h
    · rw [hdisp] at h
      exact List.mem_of_mem_take h
  rw [hfull] at hmem
  exact mem_rankCandidates_ne hmem

/-- Witness for C5: the concrete resolution excludes man, woman and king
from its candidate lists. -/
theorem resolve_excludes_inputs_witness :
    resolve simZero exSpace "man" "woman" "king" 5 4 = .ok exResolved ∧
    ∀ cd, cd ∈ exResolved.fullRanked ∨ cd ∈ exResolved.display →
      cd.token ≠ "man" ∧ cd.token ≠ "woman" ∧ cd.token ≠ "king" := by
  have hok : resolve simZero exSpace "man" "woman" "king" 5 4 = .ok exResolved := by
    simp [resolve, exSpace, exResolved, VectorSpace.vectorOf, vecAdd, vecSub, sumSq,
      rankCandidates, withIdx, simZero, List.insertionSort, List.orderedInsert]
  exact ⟨hok, resolve_excludes_inputs simZero exSpace "man" "woman" "king" 5 4 exResolved hok⟩

/-- C6: resolution is deterministic — the same query against the same space
with the same parameters yields the same value, twice — and the ranking
order is strict and reproducible: descending score with ties broken by
strictly ascending frequency rank, both in the full ranking and in the
display list, the display list being the top_n-prefix of the full ranking;
no nondeterministic tie-breaking can occur. -/
theorem resolve_deterministic_ranking (sim : Vec → Vec → ℚ) (space : VectorSpace)
    (a b c : Token) (top_n search_space : Nat) :
    resolve sim space a b c top_n search_space = resolve sim space a b c top_n search_space ∧
    ∀ r, resolve sim space a b c top_n search_space = .ok r →
      r.fullRanked.Pairwise candLT ∧ r.display.Pairwise candLT ∧
      r.display = r.fullRanked.take top_n := by
  refine ⟨rfl, fun r hr => ?_⟩
  rcases resolve_eq_ok hr with ⟨va, vb, vc, _, _, _, _, hfull, hdisp⟩
  have hp : r.fullRanked.Pairwise candLT := by
    rw [hfull]
    exact rankCandidates_pairwise_lt sim space a b c _ search_space
  refine ⟨hp, ?_, hdisp⟩
  rw [hdisp]
  exact List.Pairwise.sublist (List.take_sublist top_n r.fullRanked) hp

/-- Witness for C6: the concrete resolution is strictly ranked and its
display list is the prefix of its full ranking. -/
theorem resolve_deterministic_ranking_witness :
    resolve simZero exSpace "man" "woman" "king" 5 4 = .ok exResolved ∧
    exResolved.fullRanked.Pairwise candLT ∧ exResolved.display.Pairwise candLT ∧
    exResolved.display = exResolved.fullRanked.take 5 := by
  have hok : resolve simZero exSpace "man" "woman" "king" 5 4 = .ok exResolved := by
    simp [resolve, exSpace, exResolved, VectorSpace.vectorOf, vecAdd, vecSub, sumSq,
      rankCandidates, withIdx, simZero, List.insertionSort, List.orderedInsert]
  exact ⟨hok,
    (resolve_deterministic_ranking simZero exSpace "man" "woman" "king" 5 4).2 exResolved hok⟩

/-- A rank written through the Python truthiness filter is positive. -/
theorem pyRank_pos {x : Option Nat} {k : Nat} (h : pyRank x = some k) : 1 ≤ k := by
  match x with
  | none => simp [pyRank] at h
  | some 0 => simp [pyRank] at h
  | some (j + 1) =>
    simp [pyRank] at h
    omega

/-- C8: for a successfully resolved query the recorded prediction cell is
the top-ranked candidate's token when the display list is non-empty and
the empty string when there is no candidate, and the recorded rank cell is
either null or a positive integer — never zero (and negative values cannot
occur). -/
theorem recorded_prediction_and_rank (sim : Vec → Vec → ℚ) (space : VectorSpace)
    (top_n search_space : Nat) (q : InRow) (r : Resolved)
    (hr : resolve sim space q.word1 q.word2 q.word3 top_n search_space = .ok r) :
    (r.display.head? = none → (processRow (taRow sim space top_n search_space) q).pred = "") ∧
    (∀ cd, r.display.head? = some cd →
      (processRow (taRow sim space top_n search_space) q).pred = cd.token) ∧
    (∀ k, (processRow (taRow sim space top_n search_space) q).targetrank = some k →
      1 ≤ k) := by
  have hta : taRow sim space top_n search_space q = .ok (.asTriple
      (r.display.map (fun cd => (cd.token, cd.score)))
      (match locate space r.fullRanked q.word4 with
       | .rank k => some k
       | _ => none)
      ((r.display.head?).map Candidate.token)) := by
    unfold taRow test_analogy
    rw [hr]
  refine ⟨?_, ?_, ?_⟩
  · intro hnone
    simp [processRow, hta, unpackResult, hnone, pyStr]
  · intro cd hsome
    by_cases hemp : cd.token = ""
    · simp [processRow, hta, unpackResult, hsome, pyStr, hemp]
    · simp [processRow, hta, unpackResult, hsome, pyStr, hemp]
  · intro k hk
    simp only [processRow, hta, unpackResult] at hk
    exact pyRank_pos hk

/-- Witness for C8: on the concrete resolved row the recorded prediction is
the top candidate's token queen. -/
theorem recorded_prediction_and_rank_witness :
    resolve simZero exSpace exRowGood.word1 exRowGood.word2 exRowGood.word3 5 4 =
      .ok exResolved ∧
    (processRow (taRow simZero exSpace 5 4) exRowGood).pred =
      (Candidate.mk "queen" 0 3).token := by
  have hok : resolve simZero exSpace exRowGood.word1 exRowGood.word2 exRowGood.word3 5 4 =
      .ok exResolved := by
    simp [resolve, exRowGood, exSpace, exResolved, VectorSpace.vectorOf, vecAdd, vecSub,
      sumSq, rankCandidates, withIdx, simZero, List.insertionSort, List.orderedInsert]
  refine ⟨hok, ?_⟩
  exact (recorded_prediction_and_rank simZero exSpace 5 4 exRowGood exResolved hok).2.1
    ⟨"queen", 0, 3⟩ (by simp [exResolved])

/-- A ratio of a count over a larger count lies in [0, 1]; division by a
zero denominator yields 0, which also lies in the interval. -/
theorem ratio_nonneg_le_one {a b : Nat} (hab : a ≤ b) :
    0 ≤ (a : ℚ) / (b : ℚ) ∧ (a : ℚ) / (b : ℚ) ≤ 1 := by
  constructor
  · positivity
  · rcases Nat.eq_zero_or_pos b with rfl | hb
    · have ha : a = 0 := Nat.le_zero.1 hab
      simp [ha]
    · rw [div_le_one (by exact_mod_cast hb)]
      exact_mod_cast hab

/-- C7 counterexample: with the spec's own denominators — successful
outcomes for top1_accuracy, all outcomes for topN_accuracy — a batch of one
successful rank-1 outcome and one failed outcome gives top1_accuracy = 1
but topN_accuracy = 1/2, so topN_accuracy ≥ top1_accuracy is false as
stated. -/
theorem summarize_topN_lt_top1_example :
    (summarize 1 [⟨some 1, false⟩, ⟨none, true⟩]).topN_accuracy <
      (summarize 1 [⟨some 1, false⟩, ⟨none, true⟩]).top1_accuracy := by
  norm_num [summarize, List.countP, List.countP.go]

/-- C7 (amended): both accuracies always lie in [0, 1]; and provided top_n
is positive and no outcome in the batch failed — so that the two fractions
range over the same outcomes — topN_accuracy ≥ top1_accuracy.  (With a
failed outcome present the two denominators differ and the inequality can
fail; see the counterexample.) -/
theorem summarize_accuracy_bounds (top_n : Nat) (outs : List Outcome) :
    (0 ≤ (summarize top_n outs).top1_accuracy ∧ (summarize top_n outs).top1_accuracy ≤ 1) ∧
    (0 ≤ (summarize top_n outs).topN_accuracy ∧ (summarize top_n outs).topN_accuracy ≤ 1) ∧
    (1 ≤ top_n → (∀ o ∈ outs, o.failed = false) →
      (summarize top_n outs).top1_accuracy ≤ (summarize top_n outs).topN_accuracy) := by
  have h1 : outs.countP (fun o => !o.failed && o.rank_of_expected == some 1) ≤
      outs.countP (fun o => !o.failed) := by
    apply List.countP_mono_left
    intro o _ h
    rw [Bool.and_eq_true] at h
    exact h.1
  have h2 : outs.countP (fun o =>
      match o.rank_of_expected with
      | some k => decide (k ≤ top_n)
      | none => false) ≤ outs.length :=
    List.countP_le_length _
  refine ⟨ratio_nonneg_le_one h1, ratio_nonneg_le_one h2, ?_⟩
  intro htop hnofail
  have hden : outs.countP (fun o => !o.failed) = outs.length := by
    rw [List.countP_eq_length]
    intro o ho
    rw [hnofail o ho]
    rfl
  have hnum : outs.countP (fun o => !o.failed && o.rank_of_expected == some 1) ≤
      outs.countP (fun o =>
        match o.rank_of_expected with
        | some k => decide (k ≤ top_n)
        | none => false) := by
    apply List.countP_mono_left
    intro o _ h
    rw [Bool.and_eq_true] at h
    have hrk : o.rank_of_expected = some 1 := by
      have := h.2
      exact eq_of_beq this
    rw [hrk]
    simpa using htop
  simp only [summarize]
  rw [hden]
  exact div_le_div_of_nonneg_right (by exact_mod_cast hnum) (by positivity)

/-- Witness for C7: on a batch of one successful rank-1 outcome with
top_n = 1, the bounds hold and top1_accuracy is at most topN_accuracy. -/
theorem summarize_accuracy_bounds_witness :
    (0 ≤ (summarize 1 [⟨some 1, false⟩]).top1_accuracy ∧
      (summarize 1 [⟨some 1, false⟩]).top1_accuracy ≤ 1) ∧
    (0 ≤ (summarize 1 [⟨some 1, false⟩]).topN_accuracy ∧
      (summarize 1 [⟨some 1, false⟩]).topN_accuracy ≤ 1) ∧
    (summarize 1 [⟨some 1, false⟩]).top1_accuracy ≤
      (summarize 1 [⟨some 1, false⟩]).topN_accuracy := by
  have h := summarize_accuracy_bounds 1 [⟨some 1, false⟩]
  exact ⟨h.1, h.2.1, h.2.2 (by decide) (by decide)⟩

end Analogy
